import Mathlib

deriving instance DecidableEq for Except

/-!
Shallow embedding of the recipe-app-api Django REST backend
(`app/core/models.py`, `app/recipe/serializers.py`, `app/recipe/views.py`,
`app/user/serializers.py`, `app/user/views.py`).

Text is modelled as `List Char` (a Python `str` is a sequence of characters),
database tables as lists of rows, autoincrement primary keys as explicit
counters, and many-to-many relations as lists of linked row ids.
-/

namespace RecipeApp

/-- Python `str`: a sequence of characters. -/
abbrev Str := List Char

/-- A `Tag` or `Ingredient` row (`core/models.py`): both models have exactly
the fields `id` (pk), `user` (owner foreign key) and `name`. -/
structure AttrRow where
  id : Nat
  user : Nat
  name : Str
deriving DecidableEq

/-- A `Recipe` row (`core/models.py`), with its two many-to-many relations
represented as the lists of linked tag/ingredient ids. `price` (a 2-place
decimal) is represented as an integer number of cents; no claim computes
with prices. -/
structure Recipe where
  id : Nat
  user : Nat
  title : Str
  time_minutes : Int
  price : Int
  description : Str
  link : Str
  tags : List Nat
  ingredients : List Nat
deriving DecidableEq

/-- A `User` row (`core/models.py`): `password` holds the stored hash. -/
structure UserRow where
  id : Nat
  email : Str
  password : Str
  name : Str
  is_active : Bool
deriving DecidableEq

/-- The relational store backing the recipe API. -/
structure DB where
  recipes : List Recipe
  tags : List AttrRow
  ingredients : List AttrRow
  next_recipe_id : Nat
  next_tag_id : Nat
  next_ingredient_id : Nat
deriving DecidableEq

/-- Lookup of a tag/ingredient row by `(user, name)`, as in
`Tag.objects.get_or_create(user=auth_user, name=...)`: the first row of the
table matching both keys. -/
def find_attr (table : List AttrRow) (u : Nat) (n : Str) : Option AttrRow :=
  table.find? (fun t => t.user == u && t.name == n)

/-- Models `Tag.objects.get_or_create(user=auth_user, **tag)` (and the
identical call for ingredients): return the existing row for `(user, name)`,
or insert a fresh row under the next autoincrement id. -/
def objects_get_or_create (table : List AttrRow) (next_id : Nat) (u : Nat) (n : Str) :
    AttrRow × List AttrRow × Nat :=
  match find_attr table u n with
  | some row => (row, table, next_id)
  | none => (⟨next_id, u, n⟩, table ++ [⟨next_id, u, n⟩], next_id + 1)

/-- Models `recipe.tags.add(obj)`: a many-to-many add is a no-op when the
link already exists. -/
def m2m_add (links : List Nat) (i : Nat) : List Nat :=
  if i ∈ links then links else links ++ [i]

/-- State threaded through `_get_or_create_tags` / `_get_or_create_ingredients`:
the attribute table, its autoincrement counter, and the recipe's link list. -/
structure GocState where
  table : List AttrRow
  next_id : Nat
  links : List Nat
deriving DecidableEq

/-- Models `RecipeSerializer._get_or_create_tags(tags, recipe)` (and the
identical `_get_or_create_ingredients`): for each listed name, get-or-create
the row keyed on `(auth_user, name)` and add its id to the recipe's links. -/
def get_or_create_attrs (table : List AttrRow) (next_id : Nat) (u : Nat)
    (names : List Str) (links : List Nat) : GocState :=
  match names with
  | [] => ⟨table, next_id, links⟩
  | n :: ns =>
    let step := objects_get_or_create table next_id u n
    get_or_create_attrs step.2.1 step.2.2 u ns (m2m_add links step.1.id)

/-- The writable recipe fields of `RecipeDetailSerializer` for creation
(`Meta.fields` minus the read-only `id`, plus `description` from the detail
serializer): `tags`/`ingredients` are `required=False`, so they may be absent. -/
structure CreatePayload where
  title : Str
  time_minutes : Int
  price : Int
  description : Str
  link : Str
  tags : Option (List Str)
  ingredients : Option (List Str)
deriving DecidableEq

/-- An update payload: every writable field may be absent (partial update). -/
structure UpdatePayload where
  title : Option Str
  time_minutes : Option Int
  price : Option Int
  description : Option Str
  link : Option Str
  tags : Option (List Str)
  ingredients : Option (List Str)
deriving DecidableEq

/-- A raw create request body: it may additionally name a `user` and an `id`,
neither of which is a writable serializer field. -/
structure RawCreatePayload extends CreatePayload where
  user : Option Nat
  id : Option Nat
deriving DecidableEq

/-- A raw update request body, possibly naming a `user` and an `id`. -/
structure RawUpdatePayload extends UpdatePayload where
  user : Option Nat
  id : Option Nat
deriving DecidableEq

/-- Models DRF field selection for `RecipeSerializer.Meta`: `user` is not in
`Meta.fields` and `id` is in `read_only_fields`, so both are dropped from
`validated_data` before `create` runs. -/
def to_validated_create (raw : RawCreatePayload) : CreatePayload :=
  raw.toCreatePayload

/-- Models DRF field selection for `RecipeSerializer.Meta` on update: `user`
and `id` are dropped from `validated_data` before `update` runs. -/
def to_validated_update (raw : RawUpdatePayload) : UpdatePayload :=
  raw.toUpdatePayload

/-- Models `RecipeSerializer.create(validated_data)`: pop `tags` and
`ingredients` (defaulting to `[]`), create the recipe row, then get-or-create
and link every listed tag and ingredient. -/
def recipe_create (db : DB) (auth_user : Nat) (p : CreatePayload) : Recipe × DB :=
  let tags := p.tags.getD []
  let ingredients := p.ingredients.getD []
  let tag_state := get_or_create_attrs db.tags db.next_tag_id auth_user tags []
  let ing_state := get_or_create_attrs db.ingredients db.next_ingredient_id auth_user ingredients []
  let recipe : Recipe :=
    { id := db.next_recipe_id, user := auth_user, title := p.title,
      time_minutes := p.time_minutes, price := p.price,
      description := p.description, link := p.link,
      tags := tag_state.links, ingredients := ing_state.links }
  (recipe,
   { db with
      recipes := db.recipes ++ [recipe],
      next_recipe_id := db.next_recipe_id + 1,
      tags := tag_state.table, next_tag_id := tag_state.next_id,
      ingredients := ing_state.table, next_ingredient_id := ing_state.next_id })

/-- Models `RecipeViewSet.perform_create`: `serializer.save(user=request.user)`
runs `create` on the validated data with the authenticated requester as owner. -/
def perform_create (db : DB) (request_user : Nat) (raw : RawCreatePayload) : Recipe × DB :=
  recipe_create db request_user (to_validated_create raw)

/-- Models `RecipeSerializer.update(instance, validated_data)`: pop `tags` and
`ingredients` (defaulting to `None`); when a list is present, clear the
corresponding links and re-link via get-or-create; then assign every remaining
present field onto the instance and save it. -/
def recipe_update (db : DB) (auth_user : Nat) (inst : Recipe) (p : UpdatePayload) :
    Recipe × DB :=
  let tag_state : GocState :=
    match p.tags with
    | none => ⟨db.tags, db.next_tag_id, inst.tags⟩
    | some names => get_or_create_attrs db.tags db.next_tag_id auth_user names []
  let ing_state : GocState :=
    match p.ingredients with
    | none => ⟨db.ingredients, db.next_ingredient_id, inst.ingredients⟩
    | some names => get_or_create_attrs db.ingredients db.next_ingredient_id auth_user names []
  let inst' : Recipe :=
    { inst with
      tags := tag_state.links,
      ingredients := ing_state.links,
      title := p.title.getD inst.title,
      time_minutes := p.time_minutes.getD inst.time_minutes,
      price := p.price.getD inst.price,
      description := p.description.getD inst.description,
      link := p.link.getD inst.link }
  (inst',
   { db with
      tags := tag_state.table, next_tag_id := tag_state.next_id,
      ingredients := ing_state.table, next_ingredient_id := ing_state.next_id,
      recipes := db.recipes.map (fun r => if r.id = inst.id then inst' else r) })

/-- The recipe update endpoint: serializer validation (which drops `user` and
`id`) followed by `RecipeSerializer.update`. -/
def recipe_update_endpoint (db : DB) (auth_user : Nat) (inst : Recipe)
    (raw : RawUpdatePayload) : Recipe × DB :=
  recipe_update db auth_user inst (to_validated_update raw)

/-- Descending-id order on recipes, as in `order_by('-id')`. -/
def id_desc (a b : Recipe) : Prop := b.id ≤ a.id

instance : DecidableRel id_desc := fun a b => Nat.decLe b.id a.id

instance : IsTotal Recipe id_desc := ⟨fun a b => Or.symm (Nat.le_total a.id b.id)⟩

instance : IsTrans Recipe id_desc := ⟨fun _ _ _ h₁ h₂ => le_trans h₂ h₁⟩

/-- Descending-name order on tag/ingredient rows, as in `order_by('-name')`. -/
def name_desc (a b : AttrRow) : Prop := b.name ≤ a.name

instance : DecidableRel name_desc :=
  fun a b => (inferInstance : Decidable (b.name ≤ a.name))

instance : IsTotal AttrRow name_desc := ⟨fun a b => Or.symm (le_total a.name b.name)⟩

instance : IsTrans AttrRow name_desc := ⟨fun _ _ _ h₁ h₂ => le_trans h₂ h₁⟩

/-- Models `RecipeViewSet.get_queryset` after the query parameters have been
converted to id lists (an empty list is falsy, so it applies no filter, exactly
as `if tags:` does). Each `filter(tags__id__in=...)` is an SQL join producing
one row per matching link; `order_by('-id').distinct()` deduplicates and sorts
by descending id. -/
def recipe_get_queryset (db : DB) (request_user : Nat)
    (tag_ids ingredient_ids : List Nat) : List Recipe :=
  let q0 := db.recipes
  let q1 := if tag_ids = [] then q0
    else q0.flatMap (fun r => (r.tags.filter (fun t => decide (t ∈ tag_ids))).map (fun _ => r))
  let q2 := if ingredient_ids = [] then q1
    else q1.flatMap (fun r =>
      (r.ingredients.filter (fun t => decide (t ∈ ingredient_ids))).map (fun _ => r))
  let q3 := q2.filter (fun r => decide (r.user = request_user))
  List.insertionSort id_desc q3.dedup

/-- Models `BaseRecipeAttrViewSet.get_queryset` over either attribute table:
scope to the requester, then, when `assigned_only` (the parameter parsed as an
integer, defaulting to `0`) is nonzero, keep rows linked to at least one recipe
of any owner (`filter(recipe__isnull=False)` joins one row per linking recipe);
finally `order_by('-name').distinct()`. -/
def base_attr_get_queryset (table : List AttrRow) (recipes : List Recipe)
    (link_ids : Recipe → List Nat) (request_user : Nat)
    (assigned_only_param : Option Int) : List AttrRow :=
  let q0 := table.filter (fun t => decide (t.user = request_user))
  let assigned_only : Bool := decide (assigned_only_param.getD 0 ≠ 0)
  let q1 := if assigned_only then
      q0.flatMap (fun t =>
        (recipes.filter (fun r => decide (t.id ∈ link_ids r))).map (fun _ => t))
    else q0
  List.insertionSort name_desc q1.dedup

/-- `TagViewSet`'s queryset: the base behaviour over the tag table. -/
def tag_get_queryset (db : DB) (request_user : Nat)
    (assigned_only_param : Option Int) : List AttrRow :=
  base_attr_get_queryset db.tags db.recipes (fun r => r.tags) request_user assigned_only_param

/-- `IngredientViewSet`'s queryset: the base behaviour over the ingredient table. -/
def ingredient_get_queryset (db : DB) (request_user : Nat)
    (assigned_only_param : Option Int) : List AttrRow :=
  base_attr_get_queryset db.ingredients db.recipes (fun r => r.ingredients)
    request_user assigned_only_param

/-- How a request outcome can go wrong: a DRF validation error is rendered as
a 400 response, while an exception the view never catches propagates as a
server error. -/
inductive ApiError where
  | validation : Str → ApiError
  | unhandled : Str → ApiError
deriving DecidableEq

/-- Python `str.strip()`: remove leading and trailing whitespace. -/
def py_strip (s : Str) : Str :=
  ((s.dropWhile Char.isWhitespace).reverse.dropWhile Char.isWhitespace).reverse

/-- Numeric value of a string of decimal digits. -/
def digits_val (ds : Str) : Nat :=
  ds.foldl (fun a c => a * 10 + (c.toNat - '0'.toNat)) 0

/-- Models Python `int(s)` on `str` input: optional surrounding whitespace, an
optional sign, then a nonempty run of decimal digits; anything else raises
`ValueError`, modelled as `none`. -/
def py_int (s : Str) : Option Int :=
  let t := py_strip s
  let signed : Int × Str :=
    match t with
    | '-' :: rest => (-1, rest)
    | '+' :: rest => (1, rest)
    | _ => (1, t)
  if signed.2.isEmpty then none
  else if signed.2.all Char.isDigit then some (signed.1 * (digits_val signed.2 : Int))
  else none

/-- Python `s.split(sep)` for a one-character separator: split at every
occurrence, keeping empty pieces (`''.split(',') = ['']`). -/
def py_split (sep : Char) : Str → List Str
  | [] => [[]]
  | c :: cs =>
    match py_split sep cs with
    | [] => [[c]]
    | t :: ts => if c = sep then [] :: t :: ts else (c :: t) :: ts

/-- The list comprehension `[int(str_id) for str_id in qs.split(',')]`: it
produces the `int()` of every token, failing at the first token `int()`
rejects. -/
def map_int_tokens : List Str → Option (List Int)
  | [] => some []
  | t :: ts =>
    match py_int t, map_int_tokens ts with
    | some v, some vs => some (v :: vs)
    | _, _ => none

/-- Models `RecipeViewSet._params_to_ints(qs)`: `if not qs: return []` (absent
parameter or empty string), otherwise `int()` of every comma-separated token;
a token `int()` rejects raises `ValueError`, which no caller catches. -/
def params_to_ints (qs : Option Str) : Except ApiError (List Int) :=
  match qs with
  | none => Except.ok []
  | some s =>
    if s.isEmpty then Except.ok []
    else
      match map_int_tokens (py_split ',' s) with
      | some l => Except.ok l
      | none => Except.error (ApiError.unhandled "ValueError: invalid literal for int() with base 10".toList)

/-- Models Django password hashing abstractly: hashing is deterministic and
injective (a tagged copy of the plaintext), so verification succeeds exactly
when the checked plaintext equals the hashed one — the contract
`check_password(set_password(p), q) = (p = q)` the API relies on. -/
def hash_password (p : Str) : Str := '!' :: 'h' :: '$' :: p

/-- Models `user.check_password(p)`: the stored hash verifies against `p` iff
it is the hash of `p`. -/
def check_password (stored : Str) (p : Str) : Bool := stored == hash_password p

/-- Python `str.lower()` on ASCII, as applied to an email's domain part. -/
def py_lower (s : Str) : Str := s.map Char.toLower

/-- `email.strip().rsplit('@', 1)`: split the stripped address at its last
`'@'`; `none` when there is no `'@'` (Python raises `ValueError` there). -/
def rsplit_last_at (s : Str) : Option (Str × Str) :=
  if '@' ∈ s then
    let rev := s.reverse
    some (((rev.dropWhile (fun c => c ≠ '@')).drop 1).reverse,
          (rev.takeWhile (fun c => c ≠ '@')).reverse)
  else none

/-- Models `BaseUserManager.normalize_email`: lower-case the domain part of
the stripped address; an address with no `'@'` is returned unchanged. -/
def normalize_email (e : Str) : Str :=
  match rsplit_last_at (py_strip e) with
  | none => e
  | some (name_part, domain_part) => name_part ++ '@' :: py_lower domain_part

/-- Models `UserManager.create_user` together with `user.save()` under the
model's `unique=True` email column: reject a missing email (a `ValueError`),
normalize the email and hash the password, and let the insert fail with an
`IntegrityError` when another row already holds the same stored (normalized)
email — a database constraint violation, not a serializer check, and nothing
catches it. -/
def create_user (users : List UserRow) (next_id : Nat) (email password name : Str) :
    Except Str (UserRow × List UserRow × Nat) :=
  if email.isEmpty then Except.error "User must have an email address.".toList
  else
    let u : UserRow :=
      { id := next_id, email := normalize_email email,
        password := hash_password password, name := name, is_active := true }
    if users.any (fun x => x.email == u.email) then
      Except.error "IntegrityError: UNIQUE constraint failed: core_user.email".toList
    else Except.ok (u, users ++ [u], next_id + 1)

/-- Models Django's `EmailValidator` as run by the serializer's `EmailField`,
at the granularity this development needs: a nonempty local part and a
nonempty domain part around a single `'@'`, with no whitespace. -/
def email_valid (e : Str) : Bool :=
  match py_split '@' e with
  | [l, d] => !l.isEmpty && !d.isEmpty && e.all (fun c => !c.isWhitespace)
  | _ => false

/-- Models `POST /api/user/create/`: DRF validation of `UserSerializer`
(email format, the unique-email validator from the model's `unique=True`, and
`min_length=5` on `password`), then `UserSerializer.create` →
`UserManager.create_user`. A validation failure is a 400 and creates nothing. -/
def create_user_api (users : List UserRow) (next_id : Nat) (email password name : Str) :
    Except ApiError (UserRow × List UserRow × Nat) :=
  if !email_valid email then
    Except.error (ApiError.validation "Enter a valid email address.".toList)
  else if password.length < 5 then
    Except.error (ApiError.validation "Ensure this field has at least 5 characters.".toList)
  else if users.any (fun u => u.email == email) then
    Except.error (ApiError.validation "user with this email already exists.".toList)
  else
    match create_user users next_id email password name with
    | Except.ok r => Except.ok r
    | Except.error m => Except.error (ApiError.unhandled m)

/-- Lookup by the `USERNAME_FIELD` (`email`), as `ModelBackend` does. -/
def find_user_by_email (users : List UserRow) (e : Str) : Option UserRow :=
  users.find? (fun u => u.email == e)

/-- Models `django.contrib.auth.authenticate(username=email, password=...)`
with the default `ModelBackend`: find the user by email, verify the password,
and require an active account; any failure yields `None`. -/
def authenticate (users : List UserRow) (email password : Str) : Option UserRow :=
  match find_user_by_email users email with
  | none => none
  | some u => if check_password u.password password && u.is_active then some u else none

/-- The one error message `AuthTokenSerializer.validate` ever raises. -/
def auth_error_msg : Str :=
  "Unable to authenticate with provided credentials.".toList

/-- Models `AuthTokenSerializer.validate`: authenticate, and on failure raise
a single `ValidationError` with code `authorization`. -/
def auth_token_validate (users : List UserRow) (email password : Str) :
    Except Str UserRow :=
  match authenticate users email password with
  | some u => Except.ok u
  | none => Except.error auth_error_msg

/-- A token request failure: DRF field-validation errors are rendered as a
400 body keyed by field name, while the `ValidationError` raised inside
`validate` (code `authorization`) is rendered under `non_field_errors`. -/
inductive TokenFailure where
  | fields : List (Str × Str) → TokenFailure
  | authorization : Str → TokenFailure
deriving DecidableEq

/-- Models DRF field validation for `AuthTokenSerializer`'s declared fields:
the `EmailField` rejects a blank value (`allow_blank` defaults to `False`) or
an invalid address, and the password `CharField` — declared with
`trim_whitespace=False` and the default `allow_blank=False` — rejects a blank
value; each failing field contributes an error under its own name, in
declaration order. `validate` runs only when this list is empty. -/
def token_field_errors (email password : Str) : List (Str × Str) :=
  (if email.isEmpty then [("email".toList, "This field may not be blank.".toList)]
   else if !email_valid email then [("email".toList, "Enter a valid email address.".toList)]
   else []) ++
  (if password.isEmpty then [("password".toList, "This field may not be blank.".toList)]
   else [])

/-- Models `CreateTokenView` (`ObtainAuthToken`): serializer field validation
runs first; only when it passes does `AuthTokenSerializer.validate`
authenticate, and on success a token for the validated user is returned
(modelled as the user's id). -/
def create_token (users : List UserRow) (email password : Str) :
    Except TokenFailure Nat :=
  match token_field_errors email password with
  | [] =>
    match auth_token_validate users email password with
    | Except.ok u => Except.ok u.id
    | Except.error m => Except.error (TokenFailure.authorization m)
  | errs => Except.error (TokenFailure.fields errs)

/-! ### Lemmas about the get-or-create/link loop -/

theorem goc_nil (table : List AttrRow) (next_id u : Nat) (links : List Nat) :
    get_or_create_attrs table next_id u [] links = ⟨table, next_id, links⟩ := rfl

theorem goc_cons_found {table : List AttrRow} {u : Nat} {n : Str} {row : AttrRow}
    (h : find_attr table u n = some row) (next_id : Nat) (ns : List Str) (links : List Nat) :
    get_or_create_attrs table next_id u (n :: ns) links =
      get_or_create_attrs table next_id u ns (m2m_add links row.id) := by
  simp [get_or_create_attrs, objects_get_or_create, h]

theorem goc_cons_fresh {table : List AttrRow} {u : Nat} {n : Str}
    (h : find_attr table u n = none) (next_id : Nat) (ns : List Str) (links : List Nat) :
    get_or_create_attrs table next_id u (n :: ns) links =
      get_or_create_attrs (table ++ [⟨next_id, u, n⟩]) (next_id + 1) u ns (m2m_add links next_id) := by
  simp [get_or_create_attrs, objects_get_or_create, h]

theorem find_attr_append (t₁ t₂ : List AttrRow) (u : Nat) (n : Str) :
    find_attr (t₁ ++ t₂) u n = (find_attr t₁ u n).or (find_attr t₂ u n) :=
  List.find?_append

theorem find_attr_mono {t : List AttrRow} {u : Nat} {n : Str} {r : AttrRow}
    (ext : List AttrRow) (h : find_attr t u n = some r) :
    find_attr (t ++ ext) u n = some r := by
  rw [find_attr_append, h]; rfl

theorem find_attr_self_append {t : List AttrRow} {u : Nat} {n : Str} (i : Nat)
    (h : find_attr t u n = none) :
    find_attr (t ++ [⟨i, u, n⟩]) u n = some ⟨i, u, n⟩ := by
  rw [find_attr_append, h, Option.none_or]
  exact List.find?_cons_of_pos _ (by simp)

theorem find_attr_append_ne {t : List AttrRow} {u : Nat} {n m : Str} (i : Nat)
    (hne : m ≠ n) :
    find_attr (t ++ [⟨i, u, n⟩]) u m = find_attr t u m := by
  rw [find_attr_append]
  cases hf : find_attr t u m with
  | some r => rfl
  | none =>
    rw [Option.none_or]
    have hp : ¬ ((((⟨i, u, n⟩ : AttrRow).user == u) && ((⟨i, u, n⟩ : AttrRow).name == m)) = true) := by
      simp [Ne.symm hne]
    exact List.find?_eq_none.mpr (fun x hx => by
      rcases List.mem_singleton.mp hx with rfl
      exact hp)

theorem find_attr_some {t : List AttrRow} {u : Nat} {n : Str} {r : AttrRow}
    (h : find_attr t u n = some r) : r.user = u ∧ r.name = n := by
  have hp := List.find?_some h
  simp only [Bool.and_eq_true, beq_iff_eq] at hp
  exact hp

theorem goc_table_ext (u : Nat) (names : List Str) :
    ∀ (table : List AttrRow) (next_id : Nat) (links : List Nat),
      ∃ ext, (get_or_create_attrs table next_id u names links).table = table ++ ext ∧
        ∀ r ∈ ext, r.user = u ∧ r.name ∈ names := by
  induction names with
  | nil =>
    intro table next_id links
    exact ⟨[], by simp [goc_nil], fun r hr => absurd hr (List.not_mem_nil r)⟩
  | cons n ns ih =>
    intro table next_id links
    cases hf : find_attr table u n with
    | some row =>
      rw [goc_cons_found hf]
      obtain ⟨ext, he, hall⟩ := ih table next_id (m2m_add links row.id)
      exact ⟨ext, he, fun r hr => ⟨(hall r hr).1, List.mem_cons_of_mem _ (hall r hr).2⟩⟩
    | none =>
      rw [goc_cons_fresh hf]
      obtain ⟨ext, he, hall⟩ := ih (table ++ [⟨next_id, u, n⟩]) (next_id + 1) (m2m_add links next_id)
      refine ⟨⟨next_id, u, n⟩ :: ext, ?_, ?_⟩
      · simp [he]
      · intro r hr
        rcases List.mem_cons.mp hr with h | h
        · subst h; exact ⟨rfl, List.mem_cons_self n ns⟩
        · exact ⟨(hall r h).1, List.mem_cons_of_mem _ (hall r h).2⟩

theorem goc_find_mono (u : Nat) (names : List Str) {table : List AttrRow}
    {next_id : Nat} {links : List Nat} {n : Str} {r : AttrRow}
    (h : find_attr table u n = some r) :
    find_attr (get_or_create_attrs table next_id u names links).table u n = some r := by
  obtain ⟨ext, he, -⟩ := goc_table_ext u names table next_id links
  rw [he]
  exact find_attr_mono ext h

theorem mem_m2m_add {links : List Nat} {i j : Nat} :
    j ∈ m2m_add links i ↔ j ∈ links ∨ j = i := by
  by_cases hmem : i ∈ links
  · simp only [m2m_add, if_pos hmem]
    refine ⟨Or.inl, ?_⟩
    rintro (h | rfl)
    · exact h
    · exact hmem
  · simp [m2m_add, hmem]

theorem goc_links_mono (u : Nat) (names : List Str) :
    ∀ {table : List AttrRow} {next_id : Nat} {links : List Nat} {i : Nat}, i ∈ links →
      i ∈ (get_or_create_attrs table next_id u names links).links := by
  induction names with
  | nil => intro _ _ _ _ h; exact h
  | cons n ns ih =>
    intro table next_id links i hi
    cases hf : find_attr table u n with
    | some row => rw [goc_cons_found hf]; exact ih (mem_m2m_add.mpr (Or.inl hi))
    | none => rw [goc_cons_fresh hf]; exact ih (mem_m2m_add.mpr (Or.inl hi))

theorem goc_resolves (u : Nat) (names : List Str) :
    ∀ (table : List AttrRow) (next_id : Nat) (links : List Nat), ∀ n ∈ names,
      ∃ r, find_attr (get_or_create_attrs table next_id u names links).table u n = some r ∧
        r.id ∈ (get_or_create_attrs table next_id u names links).links := by
  induction names with
  | nil => intro _ _ _ n hn; cases hn
  | cons m ms ih =>
    intro table next_id links n hn
    cases hf : find_attr table u m with
    | some row =>
      rw [goc_cons_found hf]
      rcases List.mem_cons.mp hn with rfl | hns
      · exact ⟨row, goc_find_mono u ms hf, goc_links_mono u ms (mem_m2m_add.mpr (Or.inr rfl))⟩
      · exact ih table next_id (m2m_add links row.id) n hns
    | none =>
      rw [goc_cons_fresh hf]
      rcases List.mem_cons.mp hn with rfl | hns
      · exact ⟨⟨next_id, u, n⟩, goc_find_mono u ms (find_attr_self_append next_id hf),
          goc_links_mono u ms (mem_m2m_add.mpr (Or.inr rfl))⟩
      · exact ih _ _ _ n hns

theorem goc_links_src (u : Nat) (names : List Str) :
    ∀ (table : List AttrRow) (next_id : Nat) (links : List Nat) (i : Nat),
      i ∈ (get_or_create_attrs table next_id u names links).links →
      i ∈ links ∨ ∃ n ∈ names, ∃ r,
        find_attr (get_or_create_attrs table next_id u names links).table u n = some r ∧
          r.id = i := by
  induction names with
  | nil => intro _ _ _ _ hi; exact Or.inl hi
  | cons m ms ih =>
    intro table next_id links i hi
    cases hf : find_attr table u m with
    | some row =>
      rw [goc_cons_found hf] at hi ⊢
      rcases ih table next_id (m2m_add links row.id) i hi with hmem | ⟨n, hn, r, hfr, hr⟩
      · rcases mem_m2m_add.mp hmem with h | heq
        · exact Or.inl h
        · exact Or.inr ⟨m, List.mem_cons_self m ms, row, goc_find_mono u ms hf, heq.symm⟩
      · exact Or.inr ⟨n, List.mem_cons_of_mem m hn, r, hfr, hr⟩
    | none =>
      rw [goc_cons_fresh hf] at hi ⊢
      rcases ih _ _ _ i hi with hmem | ⟨n, hn, r, hfr, hr⟩
      · rcases mem_m2m_add.mp hmem with h | heq
        · exact Or.inl h
        · exact Or.inr ⟨m, List.mem_cons_self m ms, ⟨next_id, u, m⟩,
            goc_find_mono u ms (find_attr_self_append next_id hf), heq.symm⟩
      · exact Or.inr ⟨n, List.mem_cons_of_mem m hn, r, hfr, hr⟩

theorem goc_links_iff (u : Nat) (names : List Str) (table : List AttrRow)
    (next_id : Nat) (links : List Nat) (i : Nat) :
    i ∈ (get_or_create_attrs table next_id u names links).links ↔
      i ∈ links ∨ ∃ n ∈ names, ∃ r,
        find_attr (get_or_create_attrs table next_id u names links).table u n = some r ∧
          r.id = i := by
  constructor
  · exact goc_links_src u names table next_id links i
  · rintro (h | ⟨n, hn, r, hfr, rfl⟩)
    · exact goc_links_mono u names h
    · obtain ⟨r', hr', hmem⟩ := goc_resolves u names table next_id links n hn
      rw [hfr] at hr'
      cases hr'
      exact hmem

theorem goc_count (u : Nat) (names : List Str) :
    ∀ (table : List AttrRow) (next_id : Nat) (links : List Nat), names.Nodup →
      (get_or_create_attrs table next_id u names links).table.length =
        table.length + (names.filter (fun n => (find_attr table u n).isNone)).length := by
  induction names with
  | nil => intro table next_id links _; simp [goc_nil]
  | cons m ms ih =>
    intro table next_id links hnd
    rw [List.nodup_cons] at hnd
    obtain ⟨hm, hms⟩ := hnd
    cases hf : find_attr table u m with
    | some row =>
      rw [goc_cons_found hf, ih table next_id _ hms]
      simp [List.filter_cons, hf]
    | none =>
      rw [goc_cons_fresh hf, ih _ _ _ hms]
      have hcong : ms.filter (fun n => (find_attr (table ++ [⟨next_id, u, m⟩]) u n).isNone) =
          ms.filter (fun n => (find_attr table u n).isNone) := by
        apply List.filter_congr
        intro x hx
        rw [find_attr_append_ne next_id (fun hxm => absurd hx (by rw [hxm]; exact hm))]
      rw [hcong, List.length_append, List.filter_cons, if_pos (by simp [hf])]
      simp only [List.length_cons, List.length_nil]
      omega

/-! ### Claim theorems: nested write reconciliation -/

/-- C1: on recipe update the `tags` (and likewise `ingredients`) field is
ternary: absent from the payload → existing links (and the tag table) are
untouched; present as the empty list → all links cleared; present as a list of
names → the links are exactly the ids of the rows the listed names resolve to
(full replace, not merge). -/
theorem claim_C1 (db : DB) (u : Nat) (inst : Recipe) (p : UpdatePayload) :
    (p.tags = none → (recipe_update db u inst p).1.tags = inst.tags ∧
      (recipe_update db u inst p).2.tags = db.tags) ∧
    (p.tags = some [] → (recipe_update db u inst p).1.tags = []) ∧
    (∀ names, p.tags = some names → ∀ i,
      i ∈ (recipe_update db u inst p).1.tags ↔
        ∃ n ∈ names, ∃ r, find_attr (recipe_update db u inst p).2.tags u n = some r ∧
          r.id = i) ∧
    (p.ingredients = none → (recipe_update db u inst p).1.ingredients = inst.ingredients ∧
      (recipe_update db u inst p).2.ingredients = db.ingredients) ∧
    (p.ingredients = some [] → (recipe_update db u inst p).1.ingredients = []) ∧
    (∀ names, p.ingredients = some names → ∀ i,
      i ∈ (recipe_update db u inst p).1.ingredients ↔
        ∃ n ∈ names, ∃ r, find_attr (recipe_update db u inst p).2.ingredients u n = some r ∧
          r.id = i) := by
  refine ⟨?_, ?_, ?_, ?_, ?_, ?_⟩
  · intro h; simp [recipe_update, h]
  · intro h; simp [recipe_update, h, goc_nil]
  · intro names h i
    simp only [recipe_update, h]
    have hiff := goc_links_iff u names db.tags db.next_tag_id [] i
    simpa [List.not_mem_nil, false_or] using hiff
  · intro h; simp [recipe_update, h]
  · intro h; simp [recipe_update, h, goc_nil]
  · intro names h i
    simp only [recipe_update, h]
    have hiff := goc_links_iff u names db.ingredients db.next_ingredient_id [] i
    simpa [List.not_mem_nil, false_or] using hiff

def c1_db : DB :=
  { recipes := [], tags := [⟨1, 1, "Thai".toList⟩], ingredients := [],
    next_recipe_id := 1, next_tag_id := 2, next_ingredient_id := 1 }

def c1_recipe : Recipe :=
  { id := 1, user := 1, title := "Curry".toList, time_minutes := 30, price := 550,
    description := [], link := [], tags := [1], ingredients := [] }

def c1_clear_payload : UpdatePayload :=
  { title := none, time_minutes := none, price := none, description := none,
    link := none, tags := some [], ingredients := none }

def c1_omit_payload : UpdatePayload :=
  { title := none, time_minutes := none, price := none, description := none,
    link := none, tags := none, ingredients := none }

/-- Witness for C1 at concrete inputs: `tags: []` clears the links and an
absent `tags` leaves them alone. -/
theorem claim_C1_witness :
    (recipe_update c1_db 1 c1_recipe c1_clear_payload).1.tags = [] ∧
    (recipe_update c1_db 1 c1_recipe c1_omit_payload).1.tags = c1_recipe.tags :=
  ⟨(claim_C1 c1_db 1 c1_recipe c1_clear_payload).2.1 rfl,
   ((claim_C1 c1_db 1 c1_recipe c1_omit_payload).1 rfl).1⟩

/-- C3: on recipe creation every listed tag name is resolved by get-or-create
keyed on `(requesting user, name)` and linked to the new recipe: the tag table
only grows by rows owned by the requester with listed names, it grows by
exactly one row per listed name that had no row for this user (so fresh names
create rows, and an existing `(user, name)` row is reused with no duplicate),
and every listed name ends up linked; likewise for ingredients. -/
theorem claim_C3 (db : DB) (u : Nat) (p : CreatePayload)
    (htags : (p.tags.getD []).Nodup) (hings : (p.ingredients.getD []).Nodup) :
    (∃ ext, (recipe_create db u p).2.tags = db.tags ++ ext ∧
        ∀ r ∈ ext, r.user = u ∧ r.name ∈ p.tags.getD []) ∧
    (recipe_create db u p).2.tags.length =
      db.tags.length +
        ((p.tags.getD []).filter (fun n => (find_attr db.tags u n).isNone)).length ∧
    (∀ n ∈ p.tags.getD [], ∃ r, find_attr (recipe_create db u p).2.tags u n = some r ∧
        r.user = u ∧ r.name = n ∧ r.id ∈ (recipe_create db u p).1.tags) ∧
    (∀ (n : Str) (r : AttrRow), n ∈ p.tags.getD [] → find_attr db.tags u n = some r →
        find_attr (recipe_create db u p).2.tags u n = some r) ∧
    (∃ ext, (recipe_create db u p).2.ingredients = db.ingredients ++ ext ∧
        ∀ r ∈ ext, r.user = u ∧ r.name ∈ p.ingredients.getD []) ∧
    (recipe_create db u p).2.ingredients.length =
      db.ingredients.length +
        ((p.ingredients.getD []).filter (fun n => (find_attr db.ingredients u n).isNone)).length ∧
    (∀ n ∈ p.ingredients.getD [], ∃ r,
        find_attr (recipe_create db u p).2.ingredients u n = some r ∧
        r.user = u ∧ r.name = n ∧ r.id ∈ (recipe_create db u p).1.ingredients) ∧
    (∀ (n : Str) (r : AttrRow), n ∈ p.ingredients.getD [] →
        find_attr db.ingredients u n = some r →
        find_attr (recipe_create db u p).2.ingredients u n = some r) := by
  refine ⟨?_, ?_, ?_, ?_, ?_, ?_, ?_, ?_⟩
  · simpa [recipe_create] using goc_table_ext u (p.tags.getD []) db.tags db.next_tag_id []
  · simpa [recipe_create] using goc_count u (p.tags.getD []) db.tags db.next_tag_id [] htags
  · intro n hn
    obtain ⟨r, hfr, hmem⟩ := goc_resolves u (p.tags.getD []) db.tags db.next_tag_id [] n hn
    obtain ⟨hu, hname⟩ := find_attr_some hfr
    exact ⟨r, by simpa [recipe_create] using hfr, hu, hname, by simpa [recipe_create] using hmem⟩
  · intro n r _ hfr
    simpa [recipe_create] using goc_find_mono u (p.tags.getD []) hfr
  · simpa [recipe_create] using
      goc_table_ext u (p.ingredients.getD []) db.ingredients db.next_ingredient_id []
  · simpa [recipe_create] using
      goc_count u (p.ingredients.getD []) db.ingredients db.next_ingredient_id [] hings
  · intro n hn
    obtain ⟨r, hfr, hmem⟩ :=
      goc_resolves u (p.ingredients.getD []) db.ingredients db.next_ingredient_id [] n hn
    obtain ⟨hu, hname⟩ := find_attr_some hfr
    exact ⟨r, by simpa [recipe_create] using hfr, hu, hname, by simpa [recipe_create] using hmem⟩
  · intro n r _ hfr
    simpa [recipe_create] using goc_find_mono u (p.ingredients.getD []) hfr

def c3_db : DB :=
  { recipes := [], tags := [⟨1, 1, "Thai".toList⟩], ingredients := [],
    next_recipe_id := 1, next_tag_id := 2, next_ingredient_id := 1 }

def c3_payload : CreatePayload :=
  { title := "Curry".toList, time_minutes := 30, price := 550, description := [],
    link := [], tags := some ["Thai".toList, "Dinner".toList], ingredients := none }

/-- Witness for C3: creating with `tags: ['Thai', 'Dinner']` against a store
already holding the requester's `Thai` row leaves exactly 2 tag rows — `Thai`
reused, `Dinner` created. -/
theorem claim_C3_witness : (recipe_create c3_db 1 c3_payload).2.tags.length = 2 := by
  rw [(claim_C3 c3_db 1 c3_payload (by decide) (by decide)).2.1]
  decide

/-- C4: the recipe owner survives any update payload unchanged — `user` is not
a writable serializer field, so even a raw payload naming another user's id
validates to the same update and leaves the owner as it was. -/
theorem claim_C4 (db : DB) (auth_user : Nat) (inst : Recipe) (raw : RawUpdatePayload) :
    (recipe_update_endpoint db auth_user inst raw).1.user = inst.user ∧
    ∀ v : Option Nat,
      recipe_update_endpoint db auth_user inst { raw with user := v } =
        recipe_update_endpoint db auth_user inst raw := by
  constructor
  · simp [recipe_update_endpoint, recipe_update, to_validated_update]
  · intro v; rfl

def c4_raw : RawUpdatePayload :=
  { title := none, time_minutes := none, price := none, description := none,
    link := none, tags := none, ingredients := none, user := some 2, id := none }

def c4_recipe : Recipe :=
  { id := 1, user := 1, title := "Curry".toList, time_minutes := 30, price := 550,
    description := [], link := [], tags := [], ingredients := [] }

def c4_db : DB :=
  { recipes := [], tags := [], ingredients := [],
    next_recipe_id := 2, next_tag_id := 1, next_ingredient_id := 1 }

/-- Witness for C4: patching `user` to another id (2) leaves owner 1 in place. -/
theorem claim_C4_witness :
    (recipe_update_endpoint c4_db 1 c4_recipe c4_raw).1.user = c4_recipe.user :=
  (claim_C4 c4_db 1 c4_recipe c4_raw).1

/-- C6: partial-update semantics for the scalar fields — every field present in
the payload is assigned, every absent field keeps its prior value, and `id`,
owner and (when the fields are absent) the tag/ingredient links are untouched. -/
theorem claim_C6 (db : DB) (u : Nat) (inst : Recipe) (p : UpdatePayload) :
    (recipe_update db u inst p).1.title = p.title.getD inst.title ∧
    (recipe_update db u inst p).1.time_minutes = p.time_minutes.getD inst.time_minutes ∧
    (recipe_update db u inst p).1.price = p.price.getD inst.price ∧
    (recipe_update db u inst p).1.description = p.description.getD inst.description ∧
    (recipe_update db u inst p).1.link = p.link.getD inst.link ∧
    (recipe_update db u inst p).1.id = inst.id ∧
    (recipe_update db u inst p).1.user = inst.user ∧
    (p.tags = none → (recipe_update db u inst p).1.tags = inst.tags) ∧
    (p.ingredients = none → (recipe_update db u inst p).1.ingredients = inst.ingredients) := by
  refine ⟨?_, ?_, ?_, ?_, ?_, ?_, ?_, ?_, ?_⟩
  · simp [recipe_update]
  · simp [recipe_update]
  · simp [recipe_update]
  · simp [recipe_update]
  · simp [recipe_update]
  · simp [recipe_update]
  · simp [recipe_update]
  · intro h; simp [recipe_update, h]
  · intro h; simp [recipe_update, h]

def c6_db : DB :=
  { recipes := [], tags := [], ingredients := [],
    next_recipe_id := 2, next_tag_id := 1, next_ingredient_id := 1 }

def c6_recipe : Recipe :=
  { id := 1, user := 1, title := "Curry".toList, time_minutes := 30, price := 550,
    description := "Spicy".toList, link := "http://x".toList, tags := [4], ingredients := [5] }

def c6_patch : UpdatePayload :=
  { title := some "New title".toList, time_minutes := none, price := none,
    description := none, link := none, tags := none, ingredients := none }

/-- Witness for C6: patching only `title` changes the title and leaves
`time_minutes` and the tag links at their prior values. -/
theorem claim_C6_witness :
    (recipe_update c6_db 1 c6_recipe c6_patch).1.title = c6_patch.title.getD c6_recipe.title ∧
    (recipe_update c6_db 1 c6_recipe c6_patch).1.time_minutes = c6_recipe.time_minutes ∧
    (recipe_update c6_db 1 c6_recipe c6_patch).1.tags = c6_recipe.tags := by
  have h := claim_C6 c6_db 1 c6_recipe c6_patch
  exact ⟨h.1, h.2.1, h.2.2.2.2.2.2.2.1 rfl⟩

/-- C9: the owner of a created recipe is exactly the authenticated requester:
`perform_create` saves with `user=request.user`, a raw payload's `user` field
is not writable (changing it changes nothing), and every recipe in the store
after the call is either preexisting or owned by the requester. -/
theorem claim_C9 (db : DB) (request_user : Nat) (raw : RawCreatePayload) :
    (perform_create db request_user raw).1.user = request_user ∧
    (∀ r ∈ (perform_create db request_user raw).2.recipes,
        r ∈ db.recipes ∨ r.user = request_user) ∧
    ∀ v : Option Nat,
      perform_create db request_user { raw with user := v } =
        perform_create db request_user raw := by
  refine ⟨?_, ?_, fun v => rfl⟩
  · simp [perform_create, recipe_create, to_validated_create]
  · intro r hr
    simp only [perform_create, recipe_create, to_validated_create] at hr
    rw [List.mem_append] at hr
    rcases hr with h | h
    · exact Or.inl h
    · rcases List.mem_singleton.mp h with rfl
      exact Or.inr rfl

def c9_db : DB :=
  { recipes := [], tags := [], ingredients := [],
    next_recipe_id := 1, next_tag_id := 1, next_ingredient_id := 1 }

def c9_raw : RawCreatePayload :=
  { title := "Curry".toList, time_minutes := 30, price := 550, description := [],
    link := [], tags := none, ingredients := none, user := some 7, id := none }

/-- Witness for C9: a payload claiming `user: 7` still yields a recipe owned by
the authenticated requester 1. -/
theorem claim_C9_witness : (perform_create c9_db 1 c9_raw).1.user = 1 :=
  (claim_C9 c9_db 1 c9_raw).1

/-! ### Lemmas about filtering querysets -/

theorem mem_sort_dedup {α : Type} [DecidableEq α] (rel : α → α → Prop) [DecidableRel rel]
    (l : List α) (x : α) : x ∈ List.insertionSort rel l.dedup ↔ x ∈ l := by
  rw [(List.perm_insertionSort rel l.dedup).mem_iff, List.mem_dedup]

theorem nodup_sort_dedup {α : Type} [DecidableEq α] (rel : α → α → Prop) [DecidableRel rel]
    (l : List α) : (List.insertionSort rel l.dedup).Nodup :=
  (List.perm_insertionSort rel l.dedup).nodup_iff.mpr (List.nodup_dedup l)

theorem mem_join_link (l : List Recipe) (f : Recipe → List Nat) (ids : List Nat) (x : Recipe) :
    x ∈ l.flatMap (fun r => ((f r).filter (fun t => decide (t ∈ ids))).map (fun _ => r)) ↔
      x ∈ l ∧ ∃ t ∈ f x, t ∈ ids := by
  rw [List.mem_flatMap]
  constructor
  · rintro ⟨a, ha, hx⟩
    rcases List.mem_map.mp hx with ⟨t, ht, rfl⟩
    rcases List.mem_filter.mp ht with ⟨htf, htids⟩
    exact ⟨ha, t, htf, of_decide_eq_true htids⟩
  · rintro ⟨hx, t, htf, htids⟩
    exact ⟨x, hx, List.mem_map.mpr ⟨t, List.mem_filter.mpr ⟨htf, decide_eq_true htids⟩, rfl⟩⟩

theorem mem_join_assigned (q : List AttrRow) (recipes : List Recipe)
    (f : Recipe → List Nat) (x : AttrRow) :
    x ∈ q.flatMap (fun t => (recipes.filter (fun r => decide (t.id ∈ f r))).map (fun _ => t)) ↔
      x ∈ q ∧ ∃ r ∈ recipes, x.id ∈ f r := by
  rw [List.mem_flatMap]
  constructor
  · rintro ⟨a, ha, hx⟩
    rcases List.mem_map.mp hx with ⟨r, hr, rfl⟩
    rcases List.mem_filter.mp hr with ⟨hrl, hrid⟩
    exact ⟨ha, r, hrl, of_decide_eq_true hrid⟩
  · rintro ⟨hx, r, hrl, hrid⟩
    exact ⟨x, hx, List.mem_map.mpr ⟨r, List.mem_filter.mpr ⟨hrl, decide_eq_true hrid⟩, rfl⟩⟩

/-! ### Claim theorems: query filtering -/

/-- C2: a recipe is listed iff it belongs to the requester, has some tag in the
tag id list when one is given, and has some ingredient in the ingredient id
list when one is given; the result is in descending-id order with no
duplicates. -/
theorem claim_C2 (db : DB) (request_user : Nat) (tag_ids ingredient_ids : List Nat) :
    (∀ r, r ∈ recipe_get_queryset db request_user tag_ids ingredient_ids ↔
        r ∈ db.recipes ∧ r.user = request_user ∧
          (tag_ids ≠ [] → ∃ t ∈ r.tags, t ∈ tag_ids) ∧
          (ingredient_ids ≠ [] → ∃ t ∈ r.ingredients, t ∈ ingredient_ids)) ∧
    List.Sorted id_desc (recipe_get_queryset db request_user tag_ids ingredient_ids) ∧
    (recipe_get_queryset db request_user tag_ids ingredient_ids).Nodup := by
  refine ⟨?_, ?_, ?_⟩
  · intro r
    simp only [recipe_get_queryset]
    rw [mem_sort_dedup, List.mem_filter, decide_eq_true_eq]
    by_cases ht : tag_ids = [] <;> by_cases hi : ingredient_ids = [] <;>
      simp only [ht, hi, if_pos, if_neg, if_true, if_false, ne_eq, not_true_eq_false,
        not_false_eq_true, false_implies, true_implies, reduceIte, mem_join_link] <;>
      tauto
  · simp only [recipe_get_queryset]
    exact List.sorted_insertionSort id_desc _
  · simp only [recipe_get_queryset]
    exact nodup_sort_dedup id_desc _

def c2_recipeA : Recipe :=
  { id := 1, user := 1, title := "Curry".toList, time_minutes := 30, price := 550,
    description := [], link := [], tags := [1, 2], ingredients := [] }

def c2_recipeB : Recipe :=
  { id := 2, user := 1, title := "Soup".toList, time_minutes := 10, price := 250,
    description := [], link := [], tags := [3], ingredients := [] }

def c2_db : DB :=
  { recipes := [c2_recipeA, c2_recipeB], tags := [⟨1, 1, "Thai".toList⟩],
    ingredients := [], next_recipe_id := 3, next_tag_id := 2, next_ingredient_id := 1 }

/-- Witness for C2: with `tags=1`, the recipe tagged 1 is listed and the one
tagged only 3 is not. -/
theorem claim_C2_witness :
    c2_recipeA ∈ recipe_get_queryset c2_db 1 [1] [] ∧
    c2_recipeB ∉ recipe_get_queryset c2_db 1 [1] [] := by
  have h := (claim_C2 c2_db 1 [1] []).1
  constructor
  · exact (h c2_recipeA).mpr (by decide)
  · intro hmem
    exact absurd ((h c2_recipeB).mp hmem) (by decide)

theorem base_attr_spec (table : List AttrRow) (recipes : List Recipe)
    (link_ids : Recipe → List Nat) (request_user : Nat) (param : Option Int) :
    (∀ t, t ∈ base_attr_get_queryset table recipes link_ids request_user param ↔
        t ∈ table ∧ t.user = request_user ∧
          (param.getD 0 ≠ 0 → ∃ r ∈ recipes, t.id ∈ link_ids r)) ∧
    List.Sorted name_desc (base_attr_get_queryset table recipes link_ids request_user param) ∧
    (base_attr_get_queryset table recipes link_ids request_user param).Nodup := by
  refine ⟨?_, ?_, ?_⟩
  · intro t
    simp only [base_attr_get_queryset]
    rw [mem_sort_dedup]
    by_cases hp : param.getD 0 = 0 <;>
      simp only [hp, ne_eq, not_true_eq_false, not_false_eq_true,
        decide_not, Bool.not_true, Bool.not_false, if_true, if_false, reduceIte,
        false_implies, true_implies, mem_join_assigned, List.mem_filter,
        decide_eq_true_eq] <;>
      tauto
  · simp only [base_attr_get_queryset]
    exact List.sorted_insertionSort name_desc _
  · simp only [base_attr_get_queryset]
    exact nodup_sort_dedup name_desc _

/-- C5: a tag (likewise an ingredient) is listed iff it belongs to the
requester and, when `assigned_only` parses to a nonzero integer, is linked to
at least one recipe of any owner; with the flag absent or zero every row of
the requester is listed; the result is in descending-name order with no
duplicate rows. -/
theorem claim_C5 (db : DB) (request_user : Nat) (param : Option Int) :
    (∀ t, t ∈ tag_get_queryset db request_user param ↔
        t ∈ db.tags ∧ t.user = request_user ∧
          (param.getD 0 ≠ 0 → ∃ r ∈ db.recipes, t.id ∈ r.tags)) ∧
    List.Sorted name_desc (tag_get_queryset db request_user param) ∧
    (tag_get_queryset db request_user param).Nodup ∧
    (∀ t, t ∈ ingredient_get_queryset db request_user param ↔
        t ∈ db.ingredients ∧ t.user = request_user ∧
          (param.getD 0 ≠ 0 → ∃ r ∈ db.recipes, t.id ∈ r.ingredients)) ∧
    List.Sorted name_desc (ingredient_get_queryset db request_user param) ∧
    (ingredient_get_queryset db request_user param).Nodup := by
  have h1 := base_attr_spec db.tags db.recipes (fun r => r.tags) request_user param
  have h2 := base_attr_spec db.ingredients db.recipes (fun r => r.ingredients) request_user param
  exact ⟨h1.1, h1.2.1, h1.2.2, h2.1, h2.2.1, h2.2.2⟩

def c5_db : DB :=
  { recipes := [{ id := 1, user := 2, title := "Curry".toList, time_minutes := 30,
                  price := 550, description := [], link := [], tags := [1],
                  ingredients := [] }],
    tags := [⟨1, 1, "Thai".toList⟩, ⟨2, 1, "Lunch".toList⟩],
    ingredients := [], next_recipe_id := 2, next_tag_id := 3, next_ingredient_id := 1 }

/-- Witness for C5: with `assigned_only=1`, the requester's tag linked to
another owner's recipe is listed, and the unlinked one is not. -/
theorem claim_C5_witness :
    (⟨1, 1, "Thai".toList⟩ : AttrRow) ∈ tag_get_queryset c5_db 1 (some 1) ∧
    (⟨2, 1, "Lunch".toList⟩ : AttrRow) ∉ tag_get_queryset c5_db 1 (some 1) := by
  have h := (claim_C5 c5_db 1 (some 1)).1
  constructor
  · exact (h ⟨1, 1, "Thai".toList⟩).mpr (by decide)
  · intro hmem
    exact absurd ((h ⟨2, 1, "Lunch".toList⟩).mp hmem) (by decide)

/-! ### Claim theorems: authentication and registration -/

def c7_users : List UserRow :=
  [⟨1, "alice@example.com".toList, hash_password "goodpass".toList, "Alice".toList, true⟩]

/-- C7 counterexample: with a registered account, a blank password is a
credential mismatch, yet the endpoint's error is DRF's field-validation error
naming the `password` field (`allow_blank=False` fires before `validate`
runs) — not the single non-leaking authorization message the claim asserts
for every mismatch. -/
theorem claim_C7_counterexample :
    authenticate c7_users "alice@example.com".toList [] = none ∧
    create_token c7_users "alice@example.com".toList [] =
      Except.error (TokenFailure.fields
        [("password".toList, "This field may not be blank.".toList)]) ∧
    create_token c7_users "alice@example.com".toList [] ≠
      Except.error (TokenFailure.authorization auth_error_msg) := by decide

/-- C7 amended: when the credentials pass serializer field validation, the
token endpoint issues a token exactly when they authenticate an account, and
a wrong email or wrong password produces the one fixed authorization message
(the only authorization message there is, so it cannot reveal which field was
wrong); a blank password, however, is rejected by field validation before
authentication with a `may not be blank` error that names the password field;
no failure issues a token. -/
theorem claim_C7_amended (users : List UserRow) (email password : Str) :
    (token_field_errors email password = [] →
      (∀ tid, create_token users email password = Except.ok tid ↔
          ∃ usr, authenticate users email password = some usr ∧ usr.id = tid) ∧
      (authenticate users email password = none →
          create_token users email password =
            Except.error (TokenFailure.authorization auth_error_msg))) ∧
    (∀ m, create_token users email password = Except.error (TokenFailure.authorization m) →
        m = auth_error_msg) ∧
    (email_valid email = true → password = [] →
      create_token users email password =
        Except.error (TokenFailure.fields
          [("password".toList, "This field may not be blank.".toList)])) := by
  refine ⟨?_, ?_, ?_⟩
  · intro hfe
    constructor
    · intro tid
      cases h : authenticate users email password with
      | none => simp [create_token, hfe, auth_token_validate, h]
      | some u => simp [create_token, hfe, auth_token_validate, h, eq_comm]
    · intro h
      simp [create_token, hfe, auth_token_validate, h]
  · intro m hm
    cases hfe : token_field_errors email password with
    | nil =>
      cases h : authenticate users email password with
      | none =>
        simp [create_token, hfe, auth_token_validate, h] at hm
        exact hm.symm
      | some u => simp [create_token, hfe, auth_token_validate, h] at hm
    | cons e es => simp [create_token, hfe] at hm
  · intro hv hblank
    have hne : email.isEmpty = false := by
      cases email with
      | nil => exact absurd hv (by decide)
      | cons c cs => rfl
    subst hblank
    simp [create_token, token_field_errors, hne, hv]

/-- Witness for the amended C7: a wrong password fails with the fixed
authorization message, while a blank password fails with the password-naming
field error. -/
theorem claim_C7_amended_witness :
    create_token c7_users "alice@example.com".toList "wrongpass".toList =
      Except.error (TokenFailure.authorization auth_error_msg) ∧
    create_token c7_users "alice@example.com".toList [] =
      Except.error (TokenFailure.fields
        [("password".toList, "This field may not be blank.".toList)]) :=
  ⟨((claim_C7_amended c7_users "alice@example.com".toList "wrongpass".toList).1
      (by decide)).2 (by decide),
   (claim_C7_amended c7_users "alice@example.com".toList []).2.2 (by decide) rfl⟩

def c8_users : List UserRow :=
  [⟨1, "x@example.com".toList, hash_password "goodpass".toList, "X".toList, true⟩]

/-- C8 counterexample: with `x@example.com` registered, the payload
`x@EXAMPLE.com` (valid format, password length ≥ 5, equal to no stored email
as the serializer's unique validator checks) does not create a user — the
manager lower-cases the domain and the insert violates the unique email
column with an `IntegrityError` that nothing catches — refuting the claim's
success clause. -/
theorem claim_C8_counterexample :
    email_valid "x@EXAMPLE.com".toList = true ∧
    5 ≤ ("testpass123".toList).length ∧
    (∀ u ∈ c8_users, u.email ≠ "x@EXAMPLE.com".toList) ∧
    create_user_api c8_users 2 "x@EXAMPLE.com".toList "testpass123".toList "X".toList =
      Except.error (ApiError.unhandled
        "IntegrityError: UNIQUE constraint failed: core_user.email".toList) := by decide

/-- C8 amended: registration with a password of length at least 5 and a
valid-format email that matches no stored email either verbatim or after
normalization succeeds, appends exactly the new user, and the stored hash
verifies against the supplied plaintext; a password shorter than 5 or an email
equal to an existing user's is rejected with a validation error; an email that
escapes the unique validator but normalizes onto a stored email fails at save
with an unhandled `IntegrityError`; every error path creates no user. -/
theorem claim_C8_amended (users : List UserRow) (next_id : Nat) (email password name : Str) :
    (email_valid email = true → 5 ≤ password.length →
      (∀ u ∈ users, u.email ≠ email) → (∀ u ∈ users, u.email ≠ normalize_email email) →
      ∃ usr, create_user_api users next_id email password name =
          Except.ok (usr, users ++ [usr], next_id + 1) ∧
        check_password usr.password password = true) ∧
    (password.length < 5 →
      ∃ m, create_user_api users next_id email password name =
          Except.error (ApiError.validation m)) ∧
    ((∃ u ∈ users, u.email = email) →
      ∃ m, create_user_api users next_id email password name =
          Except.error (ApiError.validation m)) ∧
    (email_valid email = true → 5 ≤ password.length → (∀ u ∈ users, u.email ≠ email) →
      (∃ u ∈ users, u.email = normalize_email email) →
      ∃ m, create_user_api users next_id email password name =
          Except.error (ApiError.unhandled m)) := by
  refine ⟨?_, ?_, ?_, ?_⟩
  · intro hv hlen hfresh hfresh_norm
    have hany : users.any (fun u => u.email == email) = false := by
      rw [List.any_eq_false]
      intro u hu
      simpa using hfresh u hu
    have hany_norm : users.any (fun u => u.email == normalize_email email) = false := by
      rw [List.any_eq_false]
      intro u hu
      simpa using hfresh_norm u hu
    have hnonempty : email.isEmpty = false := by
      cases email with
      | nil => exact absurd hv (by decide)
      | cons c cs => rfl
    refine ⟨⟨next_id, normalize_email email, hash_password password, name, true⟩, ?_, ?_⟩
    · simp [create_user_api, create_user, hv, hany, hany_norm, hnonempty,
        Nat.not_lt.mpr hlen]
    · simp [check_password]
  · intro hshort
    cases hv : email_valid email with
    | false =>
      exact ⟨"Enter a valid email address.".toList, by simp [create_user_api, hv]⟩
    | true =>
      exact ⟨"Ensure this field has at least 5 characters.".toList,
        by simp [create_user_api, hv, hshort]⟩
  · rintro ⟨u, hu, hue⟩
    cases hv : email_valid email with
    | false =>
      exact ⟨"Enter a valid email address.".toList, by simp [create_user_api, hv]⟩
    | true =>
      by_cases hlen : password.length < 5
      · exact ⟨"Ensure this field has at least 5 characters.".toList,
          by simp [create_user_api, hv, hlen]⟩
      · have hany : users.any (fun x => x.email == email) = true :=
          List.any_eq_true.mpr ⟨u, hu, beq_iff_eq.mpr hue⟩
        exact ⟨"user with this email already exists.".toList,
          by simp [create_user_api, hv, hlen, hany]⟩
  · intro hv hlen hfresh hcollide
    obtain ⟨u, hu, hue⟩ := hcollide
    have hany : users.any (fun x => x.email == email) = false := by
      rw [List.any_eq_false]
      intro x hx
      simpa using hfresh x hx
    have hany_norm : users.any (fun x => x.email == normalize_email email) = true :=
      List.any_eq_true.mpr ⟨u, hu, beq_iff_eq.mpr hue⟩
    have hnonempty : email.isEmpty = false := by
      cases email with
      | nil => exact absurd hv (by decide)
      | cons c cs => rfl
    exact ⟨"IntegrityError: UNIQUE constraint failed: core_user.email".toList,
      by simp [create_user_api, create_user, hv, hany, hany_norm, hnonempty,
        Nat.not_lt.mpr hlen]⟩

/-- Witness for the amended C8: a fresh valid registration succeeds with a
verifying hash, and a 2-character password is rejected with a validation
error. -/
theorem claim_C8_amended_witness :
    (∃ usr, create_user_api [] 1 "test@example.com".toList "testpass123".toList
          "Test Name".toList =
        Except.ok (usr, [] ++ [usr], 1 + 1) ∧
      check_password usr.password "testpass123".toList = true) ∧
    ∃ m, create_user_api [] 1 "test@example.com".toList "pw".toList "Test Name".toList =
        Except.error (ApiError.validation m) :=
  ⟨(claim_C8_amended [] 1 "test@example.com".toList "testpass123".toList
        "Test Name".toList).1
      (by decide) (by decide) (by intro u hu; cases hu) (by intro u hu; cases hu),
   (claim_C8_amended [] 1 "test@example.com".toList "pw".toList "Test Name".toList).2.1
     (by decide)⟩

/-! ### Claim theorem: query-parameter id conversion -/

theorem map_int_tokens_none {ts : List Str} {t : Str} (ht : t ∈ ts)
    (hf : py_int t = none) : map_int_tokens ts = none := by
  induction ts with
  | nil => cases ht
  | cons x xs ih =>
    rcases List.mem_cons.mp ht with rfl | hxs
    · simp [map_int_tokens, hf]
    · cases hx : py_int x with
      | none => simp [map_int_tokens, hx]
      | some v => simp [map_int_tokens, hx, ih hxs]

/-- C10: `_params_to_ints` returns `[]` for an absent or empty parameter and
the `int()` of every comma-separated token when all tokens parse; a
non-integer token makes `int()` raise an exception no caller handles — it
never becomes a validation (400) error. -/
theorem claim_C10 :
    params_to_ints none = Except.ok [] ∧
    params_to_ints (some []) = Except.ok [] ∧
    (∀ (s : Str) (l : List Int), map_int_tokens (py_split ',' s) = some l →
        params_to_ints (some s) = Except.ok l) ∧
    (∀ s : Str, s ≠ [] → (∃ t ∈ py_split ',' s, py_int t = none) →
        ∃ m, params_to_ints (some s) = Except.error (ApiError.unhandled m)) ∧
    (∀ (s : Str) (m : Str), params_to_ints (some s) ≠ Except.error (ApiError.validation m)) := by
  refine ⟨rfl, by simp [params_to_ints], ?_, ?_, ?_⟩
  · intro s l h
    cases s with
    | nil =>
      rw [show py_split ',' [] = [[]] from rfl] at h
      simp [map_int_tokens, py_int, py_strip] at h
    | cons c cs =>
      simp [params_to_ints, h]
  · rintro s hs ⟨t, ht, hf⟩
    have hnone := map_int_tokens_none ht hf
    cases s with
    | nil => exact absurd rfl hs
    | cons c cs =>
      exact ⟨"ValueError: invalid literal for int() with base 10".toList,
        by simp [params_to_ints, hnone]⟩
  · intro s m
    cases s with
    | nil => simp [params_to_ints]
    | cons c cs =>
      cases hmt : map_int_tokens (py_split ',' (c :: cs)) with
      | none => simp [params_to_ints, hmt]
      | some l => simp [params_to_ints, hmt]

/-- Witness for C10: `"1,2"` parses to `[1, 2]` and `"1,x"` raises the
unhandled `ValueError`. -/
theorem claim_C10_witness :
    params_to_ints (some "1,2".toList) = Except.ok [1, 2] ∧
    ∃ m, params_to_ints (some "1,x".toList) = Except.error (ApiError.unhandled m) :=
  ⟨claim_C10.2.2.1 "1,2".toList [1, 2] (by decide),
   claim_C10.2.2.2.1 "1,x".toList (by decide) ⟨"x".toList, by decide, by decide⟩⟩

end RecipeApp
